import Mathlib

/-!
Verification of the comtrya action-resolution core: the
`ConditionalVariantAction` selection algorithm, the `Actions` dispatch
union (tag/alias resolution, strict field schema, display names), and
the repository-clone `Atom` (`Clone::plan` / `Clone::execute`).

The embedding is shallow: the rhai condition evaluator is an abstract
function `eval : String → EvalResult` (the engine with the scope built
from the run context), each payload type's `plan` is an abstract
function `planT : T → Except String (List Step)` (the manifest and
context are already applied), and the filesystem is an abstract map
from paths to entry kinds.
-/

namespace Comtrya

/-- Result of evaluating a rhai boolean expression with a scope:
`Engine::eval_with_scope::<bool>` either returns a `Bool` or fails with
an evaluation error (carried here as its message). -/
inductive EvalResult where
  | ok (b : Bool)
  | err (msg : String)
deriving DecidableEq, Repr

/-- `Variant<T>` from `src/lib/src/actions/mod.rs`: a payload together
with an optional guard condition (the `where` field). -/
structure Variant (T : Type) where
  action : T
  condition : Option String
deriving DecidableEq, Repr

/-- `ConditionalVariantAction<T>` from `src/lib/src/actions/mod.rs`:
a default payload, an optional top-level guard condition (`where`),
and an ordered list of variants. -/
structure ConditionalVariantAction (T : Type) where
  action : T
  condition : Option String
  variants : List (Variant T)
deriving DecidableEq, Repr

/-- The predicate the variant scan passes to `Iterator::find` in
`ConditionalVariantAction::plan`: a variant with no condition is
rejected; otherwise its condition is evaluated, a successful
evaluation yields its boolean, and an evaluation error is logged and
treated as `false`. -/
def variantMatches {T : Type} (eval : String → EvalResult) (v : Variant T) : Bool :=
  match v.condition with
  | none => false
  | some condition =>
    match eval condition with
    | .ok b => b
    | .err _ => false

/-- The variant scan of `ConditionalVariantAction::plan`:
`self.variants.iter().find(...)`, returning the first variant whose
condition evaluates to `true`. -/
def selectVariant {T : Type} (eval : String → EvalResult)
    (variants : List (Variant T)) : Option (Variant T) :=
  variants.find? (variantMatches eval)

/-- `ConditionalVariantAction::plan` from `src/lib/src/actions/mod.rs`
(lines 63-99). `eval` stands for the rhai engine evaluating against
the scope built from the context; `planT` stands for the payload's own
`plan(manifest, context)`. -/
def ConditionalVariantAction.plan {T Step : Type} (eval : String → EvalResult)
    (planT : T → Except String (List Step)) (a : ConditionalVariantAction T) :
    Except String (List Step) :=
  match selectVariant eval a.variants with
  | some variant => planT variant.action
  | none =>
    match a.condition with
    | none => planT a.action
    | some condition =>
      match eval condition with
      | .ok true => planT a.action
      | .ok false => .ok []
      | .err e => .error ("Failed execution condition for action: " ++ e)

theorem variantMatches_of_pre {T : Type} (eval : String → EvalResult)
    (v : Variant T)
    (h : ∀ c, v.condition = some c → eval c = .ok false ∨ ∃ m, eval c = .err m) :
    variantMatches eval v = false := by
  cases hc : v.condition with
  | none => simp [variantMatches, hc]
  | some c =>
    rcases h c hc with hf | ⟨m, hm⟩
    · simp [variantMatches, hc, hf]
    · simp [variantMatches, hc, hm]

theorem selectVariant_append_none {T : Type} (eval : String → EvalResult)
    (pre rest : List (Variant T))
    (hpre : ∀ v ∈ pre, variantMatches eval v = false) :
    selectVariant eval (pre ++ rest) = selectVariant eval rest := by
  induction pre with
  | nil => rfl
  | cons v vs ih =>
    have hv : variantMatches eval v = false := hpre v (by simp)
    simp only [selectVariant, List.cons_append, List.find?_cons, hv]
    exact ih (fun w hw => hpre w (by simp [hw]))

/-- **C1.** If variant `vi` has a condition that evaluates to `true`
and every earlier variant with a condition evaluates to `false`, then
`plan` returns exactly the result of `vi`'s payload's plan, regardless
of the top-level condition and the default payload. -/
theorem plan_selects_first_true_variant {T Step : Type}
    (eval : String → EvalResult) (planT : T → Except String (List Step))
    (a : ConditionalVariantAction T)
    (pre post : List (Variant T)) (vi : Variant T) (ci : String)
    (hsplit : a.variants = pre ++ vi :: post)
    (hci : vi.condition = some ci)
    (htrue : eval ci = .ok true)
    (hpre : ∀ v ∈ pre, ∀ c, v.condition = some c → eval c = .ok false) :
    ConditionalVariantAction.plan eval planT a = planT vi.action := by
  have hmatch : variantMatches eval vi = true := by
    simp [variantMatches, hci, htrue]
  have hfind : selectVariant eval a.variants = some vi := by
    rw [hsplit, selectVariant_append_none eval pre (vi :: post)
      (fun v hv => variantMatches_of_pre eval v
        (fun c hc => Or.inl (hpre v hv c hc)))]
    simp [selectVariant, List.find?_cons, hmatch]
  unfold ConditionalVariantAction.plan
  rw [hfind]

theorem plan_selects_first_true_variant_witness :
    let eval : String → EvalResult :=
      fun c => if c = "yes" then .ok true else .ok false
    let planT : Nat → Except String (List Nat) := fun n => .ok [n]
    let vi : Variant Nat := ⟨7, some "yes"⟩
    let a : ConditionalVariantAction Nat :=
      ⟨0, some "no", [⟨1, some "no"⟩, vi, ⟨2, some "yes"⟩]⟩
    ConditionalVariantAction.plan eval planT a = .ok [7] :=
  plan_selects_first_true_variant _ _ _
    [⟨1, some "no"⟩] [⟨2, some "yes"⟩] ⟨7, some "yes"⟩ "yes"
    rfl rfl rfl
    (by intro v hv c hc; simp at hv; subst hv; simp at hc; subst hc; rfl)

theorem selectVariant_eq_none {T : Type} (eval : String → EvalResult)
    (vs : List (Variant T))
    (h : ∀ v ∈ vs, variantMatches eval v = false) :
    selectVariant eval vs = none := by
  unfold selectVariant
  rw [List.find?_eq_none]
  intro v hv
  simp [h v hv]

/-- **C2.** Error handling in resolution is asymmetric: an evaluation
error in a variant's condition is treated as that variant evaluating
`false` (the scan continues and no error is returned to the caller),
whereas an evaluation error in the top-level condition, when no
variant matched, makes `plan` return an error. -/
theorem plan_error_asymmetry {T Step : Type}
    (eval : String → EvalResult) (planT : T → Except String (List Step))
    (a : ConditionalVariantAction T) :
    (∀ v : Variant T, ∀ c m, v.condition = some c → eval c = .err m →
      variantMatches eval v = false)
    ∧ (∀ pre post vi ci, a.variants = pre ++ vi :: post →
        (∀ v ∈ pre, ∀ c, v.condition = some c → ∃ m, eval c = .err m) →
        vi.condition = some ci → eval ci = .ok true →
        ConditionalVariantAction.plan eval planT a = planT vi.action)
    ∧ ((∀ v ∈ a.variants, variantMatches eval v = false) →
        ∀ c m, a.condition = some c → eval c = .err m →
        ConditionalVariantAction.plan eval planT a =
          .error ("Failed execution condition for action: " ++ m)) := by
  refine ⟨?_, ?_, ?_⟩
  · intro v c m hc hm
    simp [variantMatches, hc, hm]
  · intro pre post vi ci hsplit hpre hci htrue
    have hmatch : variantMatches eval vi = true := by
      simp [variantMatches, hci, htrue]
    have hfind : selectVariant eval a.variants = some vi := by
      rw [hsplit, selectVariant_append_none eval pre (vi :: post)
        (fun v hv => variantMatches_of_pre eval v
          (fun c hc => Or.inr (hpre v hv c hc)))]
      simp [selectVariant, List.find?_cons, hmatch]
    unfold ConditionalVariantAction.plan
    rw [hfind]
  · intro hnone c m hc hm
    unfold ConditionalVariantAction.plan
    rw [selectVariant_eq_none eval a.variants hnone]
    simp [hc, hm]

theorem plan_error_asymmetry_witness :
    (variantMatches
      (fun c => if c = "boom" then .err "E" else .ok true)
      (⟨3, some "boom"⟩ : Variant Nat) = false)
    ∧ (ConditionalVariantAction.plan
        (fun c => if c = "boom" then .err "E" else .ok true)
        (fun n : Nat => Except.ok [n])
        ⟨0, some "boom", [⟨1, some "boom"⟩, ⟨7, some "yes"⟩]⟩ = .ok [7])
    ∧ (ConditionalVariantAction.plan
        (fun c => if c = "boom" then EvalResult.err "E" else .ok true)
        (fun n : Nat => Except.ok [n])
        ⟨0, some "boom", [⟨1, some "boom"⟩]⟩ =
          .error ("Failed execution condition for action: " ++ "E")) := by
  refine ⟨?_, ?_, ?_⟩
  · exact (plan_error_asymmetry
      (fun c => if c = "boom" then .err "E" else .ok true)
      (fun n : Nat => (Except.ok [n] : Except String (List Nat)))
      ⟨0, some "boom", []⟩).1 ⟨3, some "boom"⟩ "boom" "E" rfl rfl
  · exact (plan_error_asymmetry
      (fun c => if c = "boom" then .err "E" else .ok true)
      (fun n : Nat => Except.ok [n])
      ⟨0, some "boom", [⟨1, some "boom"⟩, ⟨7, some "yes"⟩]⟩).2.1
      [⟨1, some "boom"⟩] [] ⟨7, some "yes"⟩ "yes" rfl
      (by intro v hv c hc; simp at hv; subst hv; simp at hc; subst hc
          exact ⟨"E", rfl⟩)
      rfl rfl
  · exact (plan_error_asymmetry
      (fun c => if c = "boom" then EvalResult.err "E" else .ok true)
      (fun n : Nat => Except.ok [n])
      ⟨0, some "boom", [⟨1, some "boom"⟩]⟩).2.2
      (by intro v hv; simp at hv; subst hv; rfl) "boom" "E" rfl rfl

/-- **C3.** When no variant matches: an absent top-level condition
delegates to the default payload; a top-level condition evaluating
`true` delegates to the default payload; one evaluating `false`
returns `Ok` of the empty Step list, not an error. -/
theorem plan_no_variant_matches {T Step : Type}
    (eval : String → EvalResult) (planT : T → Except String (List Step))
    (a : ConditionalVariantAction T)
    (hnone : ∀ v ∈ a.variants, variantMatches eval v = false) :
    (a.condition = none →
      ConditionalVariantAction.plan eval planT a = planT a.action)
    ∧ (∀ c, a.condition = some c → eval c = .ok true →
      ConditionalVariantAction.plan eval planT a = planT a.action)
    ∧ (∀ c, a.condition = some c → eval c = .ok false →
      ConditionalVariantAction.plan eval planT a = .ok []) := by
  have hfind : selectVariant eval a.variants = none :=
    selectVariant_eq_none eval a.variants hnone
  refine ⟨?_, ?_, ?_⟩
  · intro hc
    unfold ConditionalVariantAction.plan
    rw [hfind, hc]
  · intro c hc ht
    unfold ConditionalVariantAction.plan
    rw [hfind]
    simp [hc, ht]
  · intro c hc hf
    unfold ConditionalVariantAction.plan
    rw [hfind]
    simp [hc, hf]

theorem plan_no_variant_matches_witness :
    (ConditionalVariantAction.plan
      (fun c => EvalResult.ok (c = "yes")) (fun n : Nat => Except.ok [n])
      ⟨5, none, [⟨1, some "no"⟩]⟩ = .ok [5])
    ∧ (ConditionalVariantAction.plan
      (fun c => EvalResult.ok (c = "yes")) (fun n : Nat => Except.ok [n])
      ⟨5, some "yes", [⟨1, some "no"⟩]⟩ = .ok [5])
    ∧ (ConditionalVariantAction.plan
      (fun c => EvalResult.ok (c = "yes")) (fun n : Nat => Except.ok [n])
      ⟨5, some "no", [⟨1, some "no"⟩]⟩ = .ok []) := by
  refine ⟨?_, ?_, ?_⟩
  · exact (plan_no_variant_matches
      (fun c => EvalResult.ok (c = "yes")) (fun n : Nat => Except.ok [n])
      ⟨5, none, [⟨1, some "no"⟩]⟩
      (by intro v hv; simp at hv; subst hv; rfl)).1 rfl
  · exact (plan_no_variant_matches
      (fun c => EvalResult.ok (c = "yes")) (fun n : Nat => Except.ok [n])
      ⟨5, some "yes", [⟨1, some "no"⟩]⟩
      (by intro v hv; simp at hv; subst hv; rfl)).2.1 "yes" rfl rfl
  · exact (plan_no_variant_matches
      (fun c => EvalResult.ok (c = "yes")) (fun n : Nat => Except.ok [n])
      ⟨5, some "no", [⟨1, some "no"⟩]⟩
      (by intro v hv; simp at hv; subst hv; rfl)).2.2 "no" rfl rfl

/-- **C4.** A variant whose condition is absent never matches the scan
predicate, and any variant the scan selects has a condition — so a
conditionless variant is never selected, even if listed first and even
if later variants have conditions. -/
theorem conditionless_variant_never_selected {T : Type}
    (eval : String → EvalResult) (t : T)
    (vs : List (Variant T)) (v : Variant T)
    (hfind : selectVariant eval vs = some v) :
    variantMatches eval ⟨t, none⟩ = false ∧ v.condition ≠ none := by
  constructor
  · rfl
  · intro hc
    have hmatch : variantMatches eval v = true :=
      List.find?_some hfind
    rw [variantMatches, hc] at hmatch
    exact Bool.false_ne_true hmatch

theorem conditionless_variant_never_selected_witness :
    variantMatches (fun _ => EvalResult.ok true) (⟨(9 : Nat), none⟩ : Variant Nat) = false
    ∧ (⟨(2 : Nat), some "yes"⟩ : Variant Nat).condition ≠ none :=
  conditionless_variant_never_selected
    (fun _ => EvalResult.ok true) 9
    [⟨9, none⟩, ⟨2, some "yes"⟩] ⟨2, some "yes"⟩ rfl

/-- Kind of filesystem entry occupying a path: a directory or any
non-directory entry (regular file, symlink, ...). -/
inductive FsEntry where
  | file
  | dir
deriving DecidableEq, Repr

/-- The filesystem state visible to the clone atom: each path is either
unoccupied (`none`) or occupied by an entry of some kind. -/
def FileSystem : Type := String → Option FsEntry

/-- `PathBuf::exists`: `true` iff the path is occupied by any entry at
all, directory or not. -/
def pathExists (fs : FileSystem) (p : String) : Bool :=
  (fs p).isSome

/-- `Outcome` from `src/lib/src/atoms`: the dry-run result of an Atom,
a list of declared side effects and a `should_run` flag. -/
structure Outcome where
  side_effects : List String
  should_run : Bool
deriving DecidableEq, Repr

/-- `Clone` from `src/lib/src/atoms/git/clone.rs`: a repository URL, a
target directory path and an optional reference. -/
structure Clone where
  repository : String
  directory : String
  reference : Option String
deriving DecidableEq, Repr

/-- `Clone::plan` from `src/lib/src/atoms/git/clone.rs` (lines 32-37):
always `Ok`, with no side effects, and `should_run = !self.directory.exists()`. -/
def Clone.plan (fs : FileSystem) (c : Clone) : Except String Outcome :=
  .ok { side_effects := [], should_run := !(pathExists fs c.directory) }

/-- Modelled from the spec: `Clone::execute` delegates to
`gitsync::GitSync::bootstrap`, whose code is not part of this
repository. Per the spec, `execute` "performs a full clone/synchronize
of the given repository into the target directory", "failing with a
descriptive error if the underlying synchronization fails"; so a
successful run leaves the target directory present on disk, and a
failed synchronization (`ok = false` here) surfaces an error. -/
def Clone.execute (fs : FileSystem) (c : Clone) (ok : Bool) :
    Except String FileSystem :=
  if ok then
    .ok (fun p => if p = c.directory then some FsEntry.dir else fs p)
  else
    .error ("sync failure")

/-- **C5.** `Clone::plan` returns `should_run = true` iff the target
path is not occupied on disk, and the declared side-effects list is
always empty. -/
theorem clone_plan_should_run_iff_absent (fs : FileSystem) (c : Clone)
    (o : Outcome) (h : Clone.plan fs c = .ok o) :
    (o.should_run = true ↔ fs c.directory = none) ∧ o.side_effects = [] := by
  have ho : o = { side_effects := [], should_run := !(pathExists fs c.directory) } := by
    have := h.symm
    rw [Clone.plan] at this
    exact (Except.ok.injEq _ _).mp this
  subst ho
  refine ⟨?_, rfl⟩
  simp only [pathExists]
  cases hd : fs c.directory <;> simp [hd]

theorem clone_plan_should_run_iff_absent_witness :
    ((Outcome.mk [] true).should_run = true ↔
      (fun _ : String => (none : Option FsEntry)) "d" = none)
    ∧ (Outcome.mk [] true).side_effects = [] :=
  clone_plan_should_run_iff_absent (fun _ => none) ⟨"r", "d", none⟩ ⟨[], true⟩ rfl

/-- **C6.** If the target directory does not exist and `execute`
succeeds, a subsequent `plan` with the same configuration reports
`should_run = false`: the execute-then-plan round trip quiesces. -/
theorem clone_execute_then_plan_quiesces (fs fs' : FileSystem) (c : Clone)
    (ok : Bool) (habsent : fs c.directory = none)
    (hexec : Clone.execute fs c ok = .ok fs') :
    Clone.plan fs' c = .ok { side_effects := [], should_run := false } := by
  cases ok with
  | false => simp [Clone.execute] at hexec
  | true =>
    rw [Clone.execute, if_pos rfl] at hexec
    have hfs' : (fun p => if p = c.directory then some FsEntry.dir else fs p) = fs' :=
      (Except.ok.injEq _ _).mp hexec
    rw [Clone.plan, ← hfs']
    simp [pathExists]

theorem clone_execute_then_plan_quiesces_witness :
    Clone.plan
      (fun p => if p = "d" then some FsEntry.dir else (fun _ => none) p)
      ⟨"r", "d", none⟩ = .ok { side_effects := [], should_run := false } :=
  clone_execute_then_plan_quiesces (fun _ => none) _ ⟨"r", "d", none⟩ true rfl rfl

/-- **C10.** `Clone::plan` tests bare path existence, not
directory-ness: when the target path is occupied by a non-directory
entry, `plan` reports `should_run = false` even though no clone of the
repository exists there. -/
theorem clone_plan_false_on_file_entry (fs : FileSystem) (c : Clone)
    (hfile : fs c.directory = some FsEntry.file) :
    Clone.plan fs c = .ok { side_effects := [], should_run := false } := by
  rw [Clone.plan]
  simp [pathExists, hfile]

theorem clone_plan_false_on_file_entry_witness :
    Clone.plan (fun _ => some FsEntry.file) ⟨"r", "d", none⟩ =
      .ok { side_effects := [], should_run := false } :=
  clone_plan_false_on_file_entry (fun _ => some FsEntry.file) ⟨"r", "d", none⟩ rfl

/-- The fifteen concrete action kinds of the `Actions` dispatch union
(`src/lib/src/actions/mod.rs`, lines 102-154). -/
inductive ActionKind where
  | commandRun
  | directoryCopy
  | directoryCreate
  | fileCopy
  | fileDownload
  | fileLink
  | fileRemove
  | directoryRemove
  | binaryGitHub
  | groupAdd
  | macosDefault
  | packageInstall
  | packageRepository
  | userAdd
  | userAddGroup
deriving DecidableEq, Repr, Fintype

/-- The canonical discriminator name of each kind: the serde `rename`
value on the corresponding `Actions` variant. -/
def canonicalTag : ActionKind → String
  | .commandRun => "command.run"
  | .directoryCopy => "directory.copy"
  | .directoryCreate => "directory.create"
  | .fileCopy => "file.copy"
  | .fileDownload => "file.download"
  | .fileLink => "file.link"
  | .fileRemove => "file.remove"
  | .directoryRemove => "directory.remove"
  | .binaryGitHub => "binary.github"
  | .groupAdd => "group.add"
  | .macosDefault => "macos.default"
  | .packageInstall => "package.install"
  | .packageRepository => "package.repository"
  | .userAdd => "user.add"
  | .userAddGroup => "user.group"

/-- The accepted alias spellings of each kind: the serde `alias` values
on the corresponding `Actions` variant. -/
def aliasTags : ActionKind → List String
  | .commandRun => ["cmd.run"]
  | .directoryCopy => ["dir.copy"]
  | .directoryCreate => ["dir.create"]
  | .fileCopy => []
  | .fileDownload => []
  | .fileLink => []
  | .fileRemove => []
  | .directoryRemove => ["dir.remove"]
  | .binaryGitHub => ["binary.gh", "bin.github", "bin.gh"]
  | .groupAdd => []
  | .macosDefault => []
  | .packageInstall => ["package.installed"]
  | .packageRepository => ["package.repo"]
  | .userAdd => []
  | .userAddGroup => []

/-- Discriminator resolution of the internally tagged `Actions` enum
(`#[serde(tag = "action")]`): the value of the `action` field selects
the union member; the `rename` value or any `alias` value of a variant
selects that variant; any other tag is unknown. -/
def tagToKind (tag : String) : Option ActionKind :=
  if tag = "command.run" || tag = "cmd.run" then some .commandRun
  else if tag = "directory.copy" || tag = "dir.copy" then some .directoryCopy
  else if tag = "directory.create" || tag = "dir.create" then some .directoryCreate
  else if tag = "file.copy" then some .fileCopy
  else if tag = "file.download" then some .fileDownload
  else if tag = "file.link" then some .fileLink
  else if tag = "file.remove" then some .fileRemove
  else if tag = "directory.remove" || tag = "dir.remove" then some .directoryRemove
  else if tag = "binary.github" || tag = "binary.gh" || tag = "bin.github"
       || tag = "bin.gh" then some .binaryGitHub
  else if tag = "group.add" then some .groupAdd
  else if tag = "macos.default" then some .macosDefault
  else if tag = "package.install" || tag = "package.installed" then some .packageInstall
  else if tag = "package.repository" || tag = "package.repo" then some .packageRepository
  else if tag = "user.add" then some .userAdd
  else if tag = "user.group" then some .userAddGroup
  else none

/-- Deserialization of the internally tagged `Actions` union: the
`action` field is resolved to a union member, then the remaining
document is deserialized by that member's payload schema. `payloadDe`
stands for the serde-derived `ConditionalVariantAction<T>` deserializer
of each kind, which sees only the document, never the tag spelling. -/
def deserializeActions {Doc Payload : Type}
    (payloadDe : ActionKind → Doc → Except String Payload)
    (tag : String) (doc : Doc) : Except String (ActionKind × Payload) :=
  match tagToKind tag with
  | none => .error ("unknown variant " ++ tag)
  | some k => (payloadDe k doc).map (fun p => (k, p))

theorem tagToKind_accepted :
    ∀ k : ActionKind, ∀ tag ∈ canonicalTag k :: aliasTags k,
      tagToKind tag = some k := by
  decide

/-- **C7.** Deserializing an action declaration through the kind's
canonical discriminator name and through any of its accepted alias
spellings produce identical in-memory values. -/
theorem alias_deserializes_identically {Doc Payload : Type}
    (payloadDe : ActionKind → Doc → Except String Payload)
    (doc : Doc) (k : ActionKind) (tag : String)
    (htag : tag ∈ canonicalTag k :: aliasTags k) :
    deserializeActions payloadDe tag doc =
      deserializeActions payloadDe (canonicalTag k) doc := by
  unfold deserializeActions
  rw [tagToKind_accepted k tag htag,
    tagToKind_accepted k (canonicalTag k) (by simp)]

theorem alias_deserializes_identically_witness :
    deserializeActions (fun _ (d : Nat) => Except.ok d) "bin.gh" 0 =
      deserializeActions (fun _ (d : Nat) => Except.ok d) "binary.github" 0 :=
  alias_deserializes_identically (fun _ (d : Nat) => Except.ok d) 0
    ActionKind.binaryGitHub "bin.gh" (by decide)

/-- The field names recognized by the `ConditionalVariantAction<T>`
schema for a given payload field list: the flattened payload's own
fields plus `where` and `variants`. The discriminator field `action`
is consumed by the tagged enum before the struct's fields are read. -/
def recognizedField (payloadFields : List String) (f : String) : Bool :=
  f = "where" || f = "variants" || payloadFields.contains f

/-- Strict deserialization of a `ConditionalVariantAction<T>` document
under `#[serde(deny_unknown_fields)]` (`src/lib/src/actions/mod.rs`,
lines 33-44): a document is a list of field-name/value pairs; any field
outside the selected member's schema fails deserialization, otherwise
the document is handed to the derived field parser `build`. -/
def deserializeStrict {V A : Type} (payloadFields : List String)
    (build : List (String × V) → Except String A)
    (doc : List (String × V)) : Except String A :=
  match doc.find? (fun kv => !(recognizedField payloadFields kv.1)) with
  | some kv => .error ("unknown field " ++ kv.1)
  | none => build doc

/-- **C8.** A manifest action document containing a field not
recognized by the selected kind's schema fails deserialization:
unknown fields are rejected, not ignored. -/
theorem unknown_field_rejected {V A : Type} (payloadFields : List String)
    (build : List (String × V) → Except String A)
    (doc : List (String × V)) (f : String) (v : V)
    (hmem : (f, v) ∈ doc)
    (hunk : recognizedField payloadFields f = false) :
    ∃ e, deserializeStrict payloadFields build doc = .error e := by
  have hexists : ∃ x, x ∈ doc ∧ (!(recognizedField payloadFields x.1)) = true :=
    ⟨(f, v), hmem, by simp [hunk]⟩
  have hsome : (doc.find? (fun kv => !(recognizedField payloadFields kv.1))).isSome := by
    rw [List.find?_isSome]
    exact hexists
  obtain ⟨kv, hkv⟩ := Option.isSome_iff_exists.mp hsome
  refine ⟨"unknown field " ++ kv.1, ?_⟩
  unfold deserializeStrict
  rw [hkv]

theorem unknown_field_rejected_witness :
    ∃ e, deserializeStrict ["command", "args"]
      (fun _ => Except.ok 0)
      [("command", 1), ("bogus", 2)] = .error e :=
  unknown_field_rejected ["command", "args"] (fun _ => Except.ok 0)
    [("command", 1), ("bogus", 2)] "bogus" 2 (by simp) (by decide)

/-- The display name of each union member, from
`impl Display for Actions` (`src/lib/src/actions/mod.rs`, lines
178-200). It depends only on the variant, never on the alias spelling
used at parse time. Note the `BinaryGitHub` arm: `"github.binary"`. -/
def displayName : ActionKind → String
  | .commandRun => "command.run"
  | .directoryCopy => "directory.copy"
  | .directoryCreate => "directory.create"
  | .fileCopy => "file.copy"
  | .fileDownload => "file.download"
  | .fileLink => "file.link"
  | .fileRemove => "file.remove"
  | .directoryRemove => "directory.remove"
  | .binaryGitHub => "github.binary"
  | .groupAdd => "group.add"
  | .macosDefault => "macos.default"
  | .packageInstall => "package.install"
  | .packageRepository => "package.repository"
  | .userAdd => "user.add"
  | .userAddGroup => "user.group"

/-- **C9, counterexample.** The claim fails at the `BinaryGitHub` kind:
its canonical discriminator (serde `rename`) is `binary.github`, but
the `Display` implementation yields `github.binary`. -/
theorem display_name_binary_github_counterexample :
    displayName ActionKind.binaryGitHub = "github.binary"
    ∧ canonicalTag ActionKind.binaryGitHub = "binary.github"
    ∧ displayName ActionKind.binaryGitHub ≠ canonicalTag ActionKind.binaryGitHub := by
  refine ⟨rfl, rfl, ?_⟩
  decide

/-- **C9, amended.** For every kind other than `BinaryGitHub`, the
display name is the canonical discriminator name of the kind
(independent of the alias spelling used at parse time, since it is a
function of the kind alone); `BinaryGitHub` displays `github.binary`
while its canonical discriminator is `binary.github`. -/
theorem display_name_canonical_unless_binary_github (k : ActionKind)
    (h : k ≠ ActionKind.binaryGitHub) :
    displayName k = canonicalTag k := by
  cases k <;> first | rfl | exact absurd rfl h

theorem display_name_canonical_unless_binary_github_witness :
    displayName ActionKind.commandRun = canonicalTag ActionKind.commandRun :=
  display_name_canonical_unless_binary_github ActionKind.commandRun (by decide)

end Comtrya
